import Mathlib

/-!
Verification development for the `wordplay` vocabulary-flashcard app
(`src/app.py`).  The definitions below are shallow embeddings of the
program's pure logic: strings are lists of Unicode code points (`Nat`),
Streamlit session-state keys become fields of explicit state structures,
and each button handler becomes a state-transition function.  Random
draws (`secrets.randbelow(n)`) are modelled as an extra `Nat` argument
together with the hypothesis that it is `< n`.
-/

namespace Wordplay

/-- Python `str.strip()` whitespace set, restricted to the code points it
removes (Unicode whitespace: part of `app.py` line 292 `(text or "").strip()`). -/
def pyIsSpace (c : Nat) : Bool :=
  (9 ≤ c && c ≤ 13) || (28 ≤ c && c ≤ 31) || c == 32 || c == 0x85 || c == 0xA0 ||
    c == 0x1680 || (0x2000 ≤ c && c ≤ 0x200A) || c == 0x2028 || c == 0x2029 ||
    c == 0x202F || c == 0x205F || c == 0x3000

/-- Hangul syllable block test, `app.py` line 297: `0xAC00 <= code <= 0xD7A3`. -/
def isHangulSyllable (c : Nat) : Bool := 0xAC00 ≤ c && c ≤ 0xD7A3

/-- Hiragana/Katakana block test, `app.py` line 299. -/
def isKana (c : Nat) : Bool :=
  (0x3040 ≤ c && c ≤ 0x309F) || (0x30A0 ≤ c && c ≤ 0x30FF)

/-- CJK Unified Ideographs block test, `app.py` line 301. -/
def isCjkUnified (c : Nat) : Bool := 0x4E00 ≤ c && c ≤ 0x9FFF

/-- The `for ch in s` loop body of `_guess_tts_lang` (`app.py` lines 295-303):
first matching block wins, fall through to `"en"`. -/
def guessScan : List Nat → String
  | [] => "en"
  | c :: rest =>
    if isHangulSyllable c then "ko"
    else if isKana c then "ja"
    else if isCjkUnified c then "zh-CN"
    else guessScan rest

/-- Python `str.strip()` on a code-point list: drop whitespace from both ends. -/
def pyStrip (l : List Nat) : List Nat :=
  ((l.dropWhile pyIsSpace).reverse.dropWhile pyIsSpace).reverse

/-- Function `_guess_tts_lang` (`app.py` lines 291-303): strip the text, return `"en"`
when empty, otherwise scan characters left to right. -/
def guessTtsLang (l : List Nat) : String :=
  let s := pyStrip l
  if s.isEmpty then "en" else guessScan s

/-- Code points of a Lean string, to state the concrete examples. -/
def strCodes (s : String) : List Nat := s.data.map Char.toNat

/-- Function `_guess_tts_lang` applied to a Lean string literal. -/
def guessTtsLangStr (s : String) : String := guessTtsLang (strCodes s)

/-- The claim's reading of `_guess_tts_lang` (spec §4.3), stated from the
spec's words: return the language of the first character of the input that
falls in a recognized block, `"en"` when no character matches. -/
def specGuessTtsLang (l : List Nat) : String :=
  match l.find? (fun c => isHangulSyllable c || isKana c || isCjkUnified c) with
  | some c => if isHangulSyllable c then "ko" else if isKana c then "ja" else "zh-CN"
  | none => "en"

/-- Python's string truthiness-based `or`, as in `a or b` on strings. -/
def pyOrStr (a b : String) : String := if a = "" then b else a

/-- The flashcard language choice, `app.py` lines 843-847 and 979-983:
`_guess_tts_lang(word_text) or (saved_tts_lang or "en")`, where
`saved_tts_lang` is `None` or the stored preference string. -/
def ttsLangChoice (wordText : List Nat) (saved : Option String) : String :=
  pyOrStr (guessTtsLang wordText) (pyOrStr (saved.getD "") "en")

/-- Per-context synthesized-audio cache, the three session keys
`*_tts_word_id`, `*_tts_lang`, `*_tts_audio` (`app.py` lines 850-852,
986-988, 694-696); a popped/unset key is `none`. -/
structure TtsCache where
  wordId : Option String
  lang : Option String
  audioBytes : Option (List Nat)
deriving Repr, DecidableEq

/-- Python truthiness of the cached audio value (`None` or a bytes object). -/
def pyTruthyBytes : Option (List Nat) → Bool
  | none => false
  | some b => !b.isEmpty

/-- The flashcard audio render gate, `app.py` line 869 and line 1005:
`active_tts_audio and active_tts_word_id == current_word_id and
active_tts_lang == tts_lang`.  A `None` session value never equals the
(string) current word id or language. -/
def fcAudioRenderGate (cache : TtsCache) (currentWordId ttsLang : String) : Bool :=
  pyTruthyBytes cache.audioBytes && (cache.wordId == some currentWordId) &&
    (cache.lang == some ttsLang)

/-- The words-tab audio render gate, `app.py` lines 697-703:
`selected_tts_word_id and selected_tts_word_id == active_tts_word_id and
active_tts_audio and active_tts_lang == tts_lang`. -/
def wordsTabAudioRenderGate (selectedWordId : String) (cache : TtsCache)
    (ttsLang : String) : Bool :=
  (selectedWordId != "") && (some selectedWordId == cache.wordId) &&
    pyTruthyBytes cache.audioBytes && (cache.lang == some ttsLang)

/-- Sequential flashcard session state: word snapshots (`fc_words`), current
index (`fc_index`) and revealed flag (`fc_revealed`), `app.py` lines 798-800,
815, 821-826. The index is an `Int` because the session value is clamped at
render time. -/
structure FcState where
  words : List String
  fcIndex : Int
  fcRevealed : Bool
deriving Repr, DecidableEq

/-- Session reset on set change: `fc_index = 0`, `fc_revealed = False` (`app.py` 799-800). -/
def fcInit (words : List String) : FcState := ⟨words, 0, false⟩

/-- Render-time clamping of `fc_index`, `app.py` lines 821-826: the two `if`s
applied in order. -/
def fcClampIdx (len : Nat) (i : Int) : Int :=
  let i1 := if i < 0 then 0 else i
  if i1 ≥ (len : Int) then (len : Int) - 1 else i1

/-- The three sequential-mode buttons. -/
inductive FcOp
  | prev
  | answer
  | next
deriving Repr, DecidableEq

/-- Button handlers of the sequential tab, `app.py` lines 888-906:
`fc_prev` sets `fc_index = max(0, fc_index - 1)` and clears the flag,
`fc_answer` sets `fc_revealed = True`, `fc_next` sets
`fc_index = min(len(words_fc) - 1, fc_index + 1)` and clears the flag. -/
def fcButton : FcOp → FcState → FcState
  | .prev, s => { s with fcIndex := max 0 (s.fcIndex - 1), fcRevealed := false }
  | .answer, s => { s with fcRevealed := true }
  | .next, s =>
    { s with fcIndex := min ((s.words.length : Int) - 1) (s.fcIndex + 1),
             fcRevealed := false }

/-- One full turn of the sequential tab: the render phase clamps and stores
`fc_index` (lines 821-826), then a button handler runs on that state. -/
def fcTurn (op : FcOp) (s : FcState) : FcState :=
  fcButton op { s with fcIndex := fcClampIdx s.words.length s.fcIndex }

/-- Randomized flashcard session state: word snapshots (`fcr_words`), visited
index history (`fcr_history`), cursor into it (`fcr_pos`) and revealed flag
(`fcr_revealed`), `app.py` lines 935-962. History entries and the cursor are
`Int`s; both are clamped at render time. -/
structure FcrState where
  words : List String
  history : List Int
  fcrPos : Int
  fcrRevealed : Bool
deriving Repr, DecidableEq

/-- From `app.py` lines 941-946: when the history is missing or empty, seed it with
one random index (`secrets.randbelow(len(words_r))`, passed as `start`) and
reset the cursor. -/
def fcrEnsureHistory (start : Nat) (s : FcrState) : FcrState :=
  if s.history.isEmpty then { s with history := [(start : Int)], fcrPos := 0 } else s

/-- From `app.py` lines 948-953: clamp the cursor into `[0, len(history) - 1]`,
the two `if`s applied in order. -/
def fcrClampPos (s : FcrState) : FcrState :=
  let p1 := if s.fcrPos < 0 then 0 else s.fcrPos
  { s with fcrPos := if p1 ≥ (s.history.length : Int) then (s.history.length : Int) - 1 else p1 }

/-- From `app.py` lines 955-961: read `history[fcr_pos]`, clamp it into
`[0, len(words_r) - 1]`, and write it back into the history. -/
def fcrClampIndex (s : FcrState) : FcrState :=
  let raw := s.history.getD s.fcrPos.toNat 0
  let i1 := if raw < 0 then 0 else raw
  let i2 := if i1 ≥ (s.words.length : Int) then (s.words.length : Int) - 1 else i1
  { s with history := s.history.set s.fcrPos.toNat i2 }

/-- The full render-phase state normalization of the randomized tab,
`app.py` lines 941-962. -/
def fcrRender (start : Nat) (s : FcrState) : FcrState :=
  fcrClampIndex (fcrClampPos (fcrEnsureHistory start s))

/-- The currently displayed index, `fcr_index = history[fcr_pos]`
(`app.py` lines 955-962, after the render clamp). -/
def fcrIndex (s : FcrState) : Int := s.history.getD s.fcrPos.toNat 0

/-- Handler of `fcr_prev`, `app.py` lines 1023-1031: decrement the cursor when
positive, otherwise leave it; clear the revealed flag.  It takes no random
draw argument: revisiting history consumes no randomness. -/
def fcrPrevBtn (s : FcrState) : FcrState :=
  { s with fcrPos := if s.fcrPos > 0 then s.fcrPos - 1 else s.fcrPos,
           fcrRevealed := false }

/-- Handler of `fcr_answer`, `app.py` lines 1033-1035. -/
def fcrAnswerBtn (s : FcrState) : FcrState := { s with fcrRevealed := true }

/-- Handler of `fcr_next`, `app.py` lines 1037-1055.  Below the frontier it only
advances the cursor.  At the frontier it appends `0` when `len(words) <= 1`,
else it remaps the draw `r = secrets.randbelow(len(words) - 1)` by `+1` when
`r >= fcr_index`, appends, and moves the cursor to the new tail. -/
def fcrNextBtn (r : Nat) (s : FcrState) : FcrState :=
  if s.fcrPos < (s.history.length : Int) - 1 then
    { s with fcrPos := s.fcrPos + 1, fcrRevealed := false }
  else
    let nextIndex : Int :=
      if s.words.length ≤ 1 then 0
      else if (r : Int) ≥ fcrIndex s then (r : Int) + 1 else (r : Int)
    let history := s.history ++ [nextIndex]
    { s with history := history, fcrPos := (history.length : Int) - 1,
             fcrRevealed := false }

/-- Outcome of the word-list load phase shared by both flashcard tabs
(`app.py` lines 797-815 and 915-935): the stored set id, the stored word
list, whether the loader was consulted this turn, and whether `st.error`
was shown. -/
structure LoadOutcome where
  setId : Option String
  storedWords : Option (List String)
  loaderConsulted : Bool
  errorShown : Bool
deriving Repr, DecidableEq

/-- The load phase of a flashcard turn (`app.py` 797-815, identically
915-935): on set change, reset and load (an exception stores `[]` and shows
an error); otherwise load only when no word list is stored; otherwise reuse
the stored list untouched. -/
def loadWordsTurn (setId : Option String) (storedWords : Option (List String))
    (selected : String) (loader : Except String (List String)) : LoadOutcome :=
  if setId ≠ some selected then
    match loader with
    | .ok ws => ⟨some selected, some ws, true, false⟩
    | .error _ => ⟨some selected, some [], true, true⟩
  else
    match storedWords with
    | none =>
      match loader with
      | .ok ws => ⟨setId, some ws, true, false⟩
      | .error _ => ⟨setId, some [], true, true⟩
    | some ws => ⟨setId, some ws, false, false⟩

/-- Whether a card is rendered after the load phase: `app.py` lines 815-819
(and 935-939) stop the turn when the stored list is empty. -/
def cardRendered (o : LoadOutcome) : Bool := !(o.storedWords.getD []).isEmpty

/-! ## Lemmas about `_guess_tts_lang` -/

theorem pyIsSpace_lt_blocks {c : Nat} (h : pyIsSpace c = true) : c < 0x3040 := by
  simp only [pyIsSpace, Bool.or_eq_true, Bool.and_eq_true, decide_eq_true_eq,
    beq_iff_eq] at h
  omega

theorem isHangulSyllable_of_space {c : Nat} (h : pyIsSpace c = true) :
    isHangulSyllable c = false := by
  have := pyIsSpace_lt_blocks h
  simp only [isHangulSyllable, Bool.and_eq_true, decide_eq_true_eq, Bool.not_eq_true,
    Bool.and_eq_false_iff, decide_eq_false_iff_not, not_le]
  omega

theorem isKana_of_space {c : Nat} (h : pyIsSpace c = true) : isKana c = false := by
  have := pyIsSpace_lt_blocks h
  simp only [isKana, Bool.or_eq_false_iff, Bool.and_eq_false_iff,
    decide_eq_false_iff_not, not_le]
  omega

theorem isCjkUnified_of_space {c : Nat} (h : pyIsSpace c = true) :
    isCjkUnified c = false := by
  have := pyIsSpace_lt_blocks h
  simp only [isCjkUnified, Bool.and_eq_false_iff, decide_eq_false_iff_not, not_le]
  omega

theorem guessScan_cons_space {c : Nat} {l : List Nat} (h : pyIsSpace c = true) :
    guessScan (c :: l) = guessScan l := by
  simp [guessScan, isHangulSyllable_of_space h, isKana_of_space h,
    isCjkUnified_of_space h]

theorem guessScan_dropWhile_space (l : List Nat) :
    guessScan (l.dropWhile pyIsSpace) = guessScan l := by
  induction l with
  | nil => rfl
  | cons c rest ih =>
    by_cases h : pyIsSpace c = true
    · rw [List.dropWhile_cons_of_pos h, ih, guessScan_cons_space h]
    · rw [List.dropWhile_cons_of_neg h]

theorem guessScan_all_spaces {t : List Nat} (h : ∀ c ∈ t, pyIsSpace c = true) :
    guessScan t = "en" := by
  induction t with
  | nil => rfl
  | cons c rest ih =>
    rw [guessScan_cons_space (h c (List.mem_cons_self c rest))]
    exact ih fun d hd => h d (List.mem_cons_of_mem c hd)

theorem guessScan_append_spaces {t : List Nat} (l : List Nat)
    (h : ∀ c ∈ t, pyIsSpace c = true) : guessScan (l ++ t) = guessScan l := by
  induction l with
  | nil => simpa using guessScan_all_spaces h
  | cons c rest ih =>
    by_cases hH : isHangulSyllable c = true
    · simp [guessScan, hH]
    · by_cases hK : isKana c = true
      · simp [guessScan, hH, hK]
      · by_cases hC : isCjkUnified c = true
        · simp [guessScan, hH, hK, hC]
        · simp only [List.cons_append, guessScan, hH, hK, hC, Bool.false_eq_true,
            if_false]
          exact ih

theorem guessScan_pyStrip (l : List Nat) : guessScan (pyStrip l) = guessScan l := by
  have hdecomp : l.dropWhile pyIsSpace =
      pyStrip l ++ ((l.dropWhile pyIsSpace).reverse.takeWhile pyIsSpace).reverse := by
    unfold pyStrip
    rw [← List.reverse_append, List.takeWhile_append_dropWhile, List.reverse_reverse]
  calc guessScan (pyStrip l)
      = guessScan (pyStrip l ++
          ((l.dropWhile pyIsSpace).reverse.takeWhile pyIsSpace).reverse) := by
        rw [guessScan_append_spaces]
        intro c hc
        rw [List.mem_reverse] at hc
        exact List.mem_takeWhile_imp hc
    _ = guessScan (l.dropWhile pyIsSpace) := by rw [← hdecomp]
    _ = guessScan l := guessScan_dropWhile_space l

theorem guessTtsLang_eq_guessScan (l : List Nat) : guessTtsLang l = guessScan l := by
  unfold guessTtsLang
  by_cases h : (pyStrip l).isEmpty
  · rw [if_pos h, ← guessScan_pyStrip l, List.isEmpty_iff.mp h]
    rfl
  · rw [if_neg h, guessScan_pyStrip l]

theorem guessScan_eq_spec (l : List Nat) : guessScan l = specGuessTtsLang l := by
  induction l with
  | nil => rfl
  | cons c rest ih =>
    by_cases hH : isHangulSyllable c = true
    · unfold specGuessTtsLang
      rw [List.find?_cons_of_pos _ (by simp [hH])]
      simp [guessScan, hH]
    · by_cases hK : isKana c = true
      · unfold specGuessTtsLang
        rw [List.find?_cons_of_pos _ (by simp [hH, hK])]
        simp [guessScan, hH, hK]
      · by_cases hC : isCjkUnified c = true
        · unfold specGuessTtsLang
          rw [List.find?_cons_of_pos _ (by simp [hH, hK, hC])]
          simp [guessScan, hH, hK, hC]
        · unfold specGuessTtsLang
          rw [List.find?_cons_of_neg _ (by simp [hH, hK, hC])]
          simp only [guessScan, hH, hK, hC, Bool.false_eq_true, if_false]
          rw [ih]
          rfl

theorem guessScan_range (l : List Nat) :
    guessScan l = "en" ∨ guessScan l = "ko" ∨ guessScan l = "ja" ∨
      guessScan l = "zh-CN" := by
  induction l with
  | nil => left; rfl
  | cons c rest ih =>
    by_cases hH : isHangulSyllable c = true
    · right; left; simp [guessScan, hH]
    · by_cases hK : isKana c = true
      · right; right; left; simp [guessScan, hH, hK]
      · by_cases hC : isCjkUnified c = true
        · right; right; right; simp [guessScan, hH, hK, hC]
        · simpa only [guessScan, hH, hK, hC, Bool.false_eq_true, if_false] using ih

/-! ## Claim theorems: language inference -/

/-- C5: `_guess_tts_lang` scans the characters of its input left to right and
returns the language of the first character in a recognized block (Hangul
syllables → `ko`, Hiragana/Katakana → `ja`, CJK Unified Ideographs → `zh-CN`),
`en` when no character matches; with the five concrete examples. -/
theorem guess_tts_lang_first_match_spec :
    (∀ l : List Nat, guessTtsLang l = specGuessTtsLang l) ∧
    guessTtsLangStr "안녕" = "ko" ∧ guessTtsLangStr "こんにちは" = "ja" ∧
    guessTtsLangStr "你好" = "zh-CN" ∧ guessTtsLangStr "hello" = "en" ∧
    guessTtsLangStr "" = "en" :=
  ⟨fun l => (guessTtsLang_eq_guessScan l).trans (guessScan_eq_spec l),
    by decide, by decide, by decide, by decide, by decide⟩

/-- C9: `_guess_tts_lang` always returns a non-empty string drawn from
`{en, ko, ja, zh-CN}`; consequently the flashcard language choice
`_guess_tts_lang(word_text) or (saved_tts_lang or "en")` never consults the
saved preference — the guess always wins. -/
theorem guess_tts_lang_total_range_and_choice :
    (∀ l : List Nat,
      (guessTtsLang l = "en" ∨ guessTtsLang l = "ko" ∨ guessTtsLang l = "ja" ∨
        guessTtsLang l = "zh-CN") ∧ guessTtsLang l ≠ "") ∧
    (∀ (l : List Nat) (saved : Option String), ttsLangChoice l saved = guessTtsLang l) := by
  have hrange : ∀ l : List Nat,
      guessTtsLang l = "en" ∨ guessTtsLang l = "ko" ∨ guessTtsLang l = "ja" ∨
        guessTtsLang l = "zh-CN" := by
    intro l
    rw [guessTtsLang_eq_guessScan l]
    exact guessScan_range l
  have hne : ∀ l : List Nat, guessTtsLang l ≠ "" := by
    intro l
    rcases hrange l with h | h | h | h <;> rw [h] <;> decide
  refine ⟨fun l => ⟨hrange l, hne l⟩, fun l saved => ?_⟩
  unfold ttsLangChoice pyOrStr
  rw [if_neg (hne l)]

/-! ## Lemmas about sequential navigation -/

theorem fcClampIdx_of_range {len : Nat} {i : Int} (h0 : 0 ≤ i) (h1 : i < (len : Int)) :
    fcClampIdx len i = i := by
  simp only [fcClampIdx]
  split_ifs <;> omega

theorem fcClampIdx_range {len : Nat} (h : 0 < len) (i : Int) :
    0 ≤ fcClampIdx len i ∧ fcClampIdx len i ≤ (len : Int) - 1 := by
  simp only [fcClampIdx]
  split_ifs <;> omega

theorem fcTurn_words (op : FcOp) (s : FcState) : (fcTurn op s).words = s.words := by
  cases op <;> rfl

theorem fcTurn_index_range (op : FcOp) (s : FcState) (h : 0 < s.words.length) :
    0 ≤ (fcTurn op s).fcIndex ∧ (fcTurn op s).fcIndex ≤ (s.words.length : Int) - 1 := by
  have hc := @fcClampIdx_range s.words.length h s.fcIndex
  cases op with
  | prev =>
    simp only [fcTurn, fcButton]
    exact ⟨le_max_left 0 _, max_le (by omega) (by omega)⟩
  | answer =>
    simpa only [fcTurn, fcButton] using hc
  | next =>
    simp only [fcTurn, fcButton]
    exact ⟨le_min (by omega) (by omega), min_le_left _ _⟩

/-- A sequence of full sequential-tab turns. -/
def fcRun : List FcOp → FcState → FcState
  | [], s => s
  | op :: rest, s => fcRun rest (fcTurn op s)

theorem fcRun_words (ops : List FcOp) (s : FcState) : (fcRun ops s).words = s.words := by
  induction ops generalizing s with
  | nil => rfl
  | cons op rest ih => rw [fcRun, ih, fcTurn_words]

theorem fcRun_index_range (ops : List FcOp) (s : FcState) (h : 0 < s.words.length)
    (h0 : 0 ≤ s.fcIndex) (h1 : s.fcIndex ≤ (s.words.length : Int) - 1) :
    0 ≤ (fcRun ops s).fcIndex ∧ (fcRun ops s).fcIndex ≤ (s.words.length : Int) - 1 := by
  induction ops generalizing s with
  | nil => exact ⟨h0, h1⟩
  | cons op rest ih =>
    have hw : 0 < (fcTurn op s).words.length := by rw [fcTurn_words]; exact h
    have hr := fcTurn_index_range op s h
    have := ih (fcTurn op s) hw hr.1 (by rw [fcTurn_words]; exact hr.2)
    rwa [fcTurn_words] at this

/-! ## Claim theorems: sequential navigation -/

/-- C1: for a non-empty word list and an in-range position, a `fc_prev` turn
yields `position' = max(0, position - 1)` and a `fc_next` turn yields
`position' = min(len - 1, position + 1)`, and both reset the revealed flag. -/
theorem fc_prev_next_spec (s : FcState) (_hlen : 0 < s.words.length)
    (h0 : 0 ≤ s.fcIndex) (h1 : s.fcIndex < (s.words.length : Int)) :
    (fcTurn .prev s).fcIndex = max 0 (s.fcIndex - 1) ∧
    (fcTurn .prev s).fcRevealed = false ∧
    (fcTurn .next s).fcIndex = min ((s.words.length : Int) - 1) (s.fcIndex + 1) ∧
    (fcTurn .next s).fcRevealed = false := by
  have hc := fcClampIdx_of_range h0 h1
  exact ⟨by simp [fcTurn, fcButton, hc], rfl, by simp [fcTurn, fcButton, hc], rfl⟩

theorem fc_prev_next_spec_witness :
    (0 : Int) < ((["a", "b"] : List String).length : Int) ∧
    (fcTurn .prev ⟨["a", "b"], 1, true⟩).fcIndex = max 0 (1 - 1) ∧
    (fcTurn .prev ⟨["a", "b"], 1, true⟩).fcRevealed = false ∧
    (fcTurn .next ⟨["a", "b"], 1, true⟩).fcIndex = min (((["a", "b"] : List String).length : Int) - 1) (1 + 1) ∧
    (fcTurn .next ⟨["a", "b"], 1, true⟩).fcRevealed = false :=
  ⟨by decide, fc_prev_next_spec ⟨["a", "b"], 1, true⟩ (by decide) (by decide) (by decide)⟩

/-- C4: starting from `initialize`, every sequence of sequential-tab turns
keeps the position inside `[0, len - 1]`; moreover `fc_prev` at position 0
and `fc_next` at position `len - 1` leave the position unchanged. -/
theorem fc_position_invariant (words : List String) (ops : List FcOp) (s : FcState)
    (hw : 0 < words.length) (hs : 0 < s.words.length) :
    (0 ≤ (fcRun ops (fcInit words)).fcIndex ∧
      (fcRun ops (fcInit words)).fcIndex ≤ (words.length : Int) - 1) ∧
    (s.fcIndex = 0 → (fcTurn .prev s).fcIndex = 0) ∧
    (s.fcIndex = (s.words.length : Int) - 1 → (fcTurn .next s).fcIndex = s.fcIndex) := by
  refine ⟨fcRun_index_range ops (fcInit words) hw (by simp [fcInit]) (by simp [fcInit]; omega),
    ?_, ?_⟩
  · intro h
    have hc : fcClampIdx s.words.length s.fcIndex = s.fcIndex :=
      fcClampIdx_of_range (by omega) (by omega)
    rw [h] at hc
    simp only [fcTurn, fcButton, h, hc]
    decide
  · intro h
    have hc : fcClampIdx s.words.length s.fcIndex = s.fcIndex :=
      fcClampIdx_of_range (by omega) (by omega)
    rw [h] at hc
    simp only [fcTurn, fcButton, h, hc]
    exact min_eq_left (by omega)

theorem fc_position_invariant_witness :
    ((0 : Int) ≤ (fcRun [.next, .prev, .next] (fcInit ["a", "b"])).fcIndex ∧
      (fcRun [.next, .prev, .next] (fcInit ["a", "b"])).fcIndex ≤ (((["a", "b"] : List String).length : Int)) - 1) ∧
    ((⟨["a", "b"], 0, false⟩ : FcState).fcIndex = 0 →
      (fcTurn .prev ⟨["a", "b"], 0, false⟩).fcIndex = 0) ∧
    ((⟨["a", "b"], 0, false⟩ : FcState).fcIndex = (((["a", "b"] : List String).length : Int)) - 1 →
      (fcTurn .next ⟨["a", "b"], 0, false⟩).fcIndex = (⟨["a", "b"], 0, false⟩ : FcState).fcIndex) :=
  fc_position_invariant ["a", "b"] [.next, .prev, .next] ⟨["a", "b"], 0, false⟩
    (by decide) (by decide)

/-- C6: the reveal/answer buttons set the revealed flag and leave the
position (sequential tab), the history and cursor (randomized tab), and the
word lists unchanged. -/
theorem reveal_frame_effect (s : FcState) (t : FcrState) :
    (fcButton .answer s).fcIndex = s.fcIndex ∧ (fcButton .answer s).words = s.words ∧
    (fcButton .answer s).fcRevealed = true ∧
    (fcrAnswerBtn t).fcrPos = t.fcrPos ∧ (fcrAnswerBtn t).history = t.history ∧
    (fcrAnswerBtn t).words = t.words ∧ (fcrAnswerBtn t).fcrRevealed = true :=
  ⟨rfl, rfl, rfl, rfl, rfl, rfl, rfl⟩

/-! ## Claim theorems: audio cache and load phase -/

/-- C7: an audio cache entry passes a render gate exactly when its stored
word identity equals the current word's identity and its stored language
equals the currently chosen language (and the audio bytes are non-empty); in
particular a stale entry for another word or language never renders. -/
theorem audio_render_gate_valid (cache : TtsCache) (wid lang sel : String) :
    (fcAudioRenderGate cache wid lang = true ↔
      pyTruthyBytes cache.audioBytes = true ∧ cache.wordId = some wid ∧
        cache.lang = some lang) ∧
    (wordsTabAudioRenderGate sel cache lang = true ↔
      sel ≠ "" ∧ some sel = cache.wordId ∧ pyTruthyBytes cache.audioBytes = true ∧
        cache.lang = some lang) := by
  constructor <;>
    simp [fcAudioRenderGate, wordsTabAudioRenderGate, and_assoc]

/-- C8: in both flashcard tabs, when the word-list load raises, the turn
stores an empty list, shows an error, and renders no card; when the set is
unchanged and a list is already stored, the loader is never consulted (no
retry) and the outcome is fixed by the stored list — so after a failure a
card can reappear only through a set change that forces a reload. -/
theorem load_failure_semantics (setId : Option String) (stored : Option (List String))
    (selected e : String) (ws : List String) (loader : Except String (List String)) :
    ((setId ≠ some selected ∨ stored = none) →
      (loadWordsTurn setId stored selected (Except.error e)).storedWords = some [] ∧
      (loadWordsTurn setId stored selected (Except.error e)).errorShown = true ∧
      (loadWordsTurn setId stored selected (Except.error e)).loaderConsulted = true ∧
      cardRendered (loadWordsTurn setId stored selected (Except.error e)) = false) ∧
    (setId = some selected → stored = some ws →
      loadWordsTurn setId stored selected loader = ⟨setId, some ws, false, false⟩ ∧
      cardRendered (loadWordsTurn setId stored selected loader) = !ws.isEmpty) := by
  constructor
  · intro h
    by_cases hset : setId = some selected
    · rcases h with h | h
      · exact absurd hset h
      · subst h
        simp [loadWordsTurn, cardRendered, hset]
    · simp [loadWordsTurn, cardRendered, hset]
  · intro h1 h2
    subst h1
    subst h2
    simp [loadWordsTurn, cardRendered]

theorem load_failure_semantics_witness :
    ((loadWordsTurn none none "s1" (Except.error "boom")).storedWords = some [] ∧
      (loadWordsTurn none none "s1" (Except.error "boom")).errorShown = true ∧
      (loadWordsTurn none none "s1" (Except.error "boom")).loaderConsulted = true ∧
      cardRendered (loadWordsTurn none none "s1" (Except.error "boom")) = false) ∧
    (loadWordsTurn (some "s1") (some []) "s1" (Except.ok ["x"]) =
        ⟨some "s1", some [], false, false⟩ ∧
      cardRendered (loadWordsTurn (some "s1") (some []) "s1" (Except.ok ["x"])) =
        !(List.isEmpty ([] : List String))) :=
  ⟨(load_failure_semantics none none "s1" "boom" [] (Except.ok [])).1
      (Or.inl (by decide)),
    (load_failure_semantics (some "s1") (some []) "s1" "e" [] (Except.ok ["x"])).2
      rfl rfl⟩

/-! ## Claim theorems: randomized navigation -/

/-- C2: at the frontier of the history with more than one word, `fcr_next`
appends the draw `r` remapped by `+1` when `r ≥ fcr_index`; the new index is
in range, never equals the current index, and the cursor moves to the new
tail of the history. -/
theorem fcr_next_frontier_fresh (s : FcrState) (r : Nat)
    (hw : 1 < s.words.length)
    (hfrontier : s.fcrPos = (s.history.length : Int) - 1)
    (_hcur0 : 0 ≤ fcrIndex s) (hcur1 : fcrIndex s < (s.words.length : Int))
    (hr : r < s.words.length - 1) :
    (fcrNextBtn r s).history =
      s.history ++ [if (r : Int) ≥ fcrIndex s then (r : Int) + 1 else (r : Int)] ∧
    (if (r : Int) ≥ fcrIndex s then (r : Int) + 1 else (r : Int)) ≠ fcrIndex s ∧
    0 ≤ (if (r : Int) ≥ fcrIndex s then (r : Int) + 1 else (r : Int)) ∧
    (if (r : Int) ≥ fcrIndex s then (r : Int) + 1 else (r : Int)) < (s.words.length : Int) ∧
    (fcrNextBtn r s).fcrPos = ((fcrNextBtn r s).history.length : Int) - 1 ∧
    (fcrNextBtn r s).words = s.words ∧ (fcrNextBtn r s).fcrRevealed = false := by
  have hnot : ¬ s.fcrPos < (s.history.length : Int) - 1 := by omega
  have hgt : ¬ s.words.length ≤ 1 := by omega
  have hbtn : fcrNextBtn r s =
      { s with
          history := s.history ++ [if (r : Int) ≥ fcrIndex s then (r : Int) + 1 else (r : Int)],
          fcrPos := ((s.history ++ [if (r : Int) ≥ fcrIndex s then (r : Int) + 1 else (r : Int)]).length : Int) - 1,
          fcrRevealed := false } := by
    rw [fcrNextBtn, if_neg hnot]
    simp only [if_neg hgt]
  rw [hbtn]
  refine ⟨rfl, ?_, ?_, ?_, rfl, rfl, rfl⟩
  · split_ifs with hge <;> omega
  · split_ifs with hge <;> omega
  · split_ifs with hge <;> omega

theorem fcr_next_frontier_fresh_witness :
    (fcrNextBtn 1 ⟨["a", "b", "c"], [1], 0, false⟩).history =
      ([1] : List Int) ++
        [if ((1 : Nat) : Int) ≥ fcrIndex ⟨["a", "b", "c"], [1], 0, false⟩ then ((1 : Nat) : Int) + 1
         else ((1 : Nat) : Int)] ∧
    (if ((1 : Nat) : Int) ≥ fcrIndex ⟨["a", "b", "c"], [1], 0, false⟩ then ((1 : Nat) : Int) + 1
      else ((1 : Nat) : Int)) ≠ fcrIndex ⟨["a", "b", "c"], [1], 0, false⟩ ∧
    0 ≤ (if ((1 : Nat) : Int) ≥ fcrIndex ⟨["a", "b", "c"], [1], 0, false⟩ then ((1 : Nat) : Int) + 1
      else ((1 : Nat) : Int)) ∧
    (if ((1 : Nat) : Int) ≥ fcrIndex ⟨["a", "b", "c"], [1], 0, false⟩ then ((1 : Nat) : Int) + 1
      else ((1 : Nat) : Int)) < ((["a", "b", "c"] : List String).length : Int) ∧
    (fcrNextBtn 1 ⟨["a", "b", "c"], [1], 0, false⟩).fcrPos =
      ((fcrNextBtn 1 ⟨["a", "b", "c"], [1], 0, false⟩).history.length : Int) - 1 ∧
    (fcrNextBtn 1 ⟨["a", "b", "c"], [1], 0, false⟩).words = ["a", "b", "c"] ∧
    (fcrNextBtn 1 ⟨["a", "b", "c"], [1], 0, false⟩).fcrRevealed = false :=
  fcr_next_frontier_fresh ⟨["a", "b", "c"], [1], 0, false⟩ 1
    (by decide) (by decide) (by decide) (by decide) (by decide)

/-- C3: `fcr_prev` takes no random draw and only moves the cursor back
(no-op at 0), clearing the revealed flag and leaving history and words
untouched; a non-frontier `fcr_next` only advances the cursor, for every
draw; hence `fcr_prev` followed by `fcr_next` restores the state (up to the
cleared flag) for every draw — replaying exactly what history recorded. -/
theorem fcr_prev_deterministic_replay (s : FcrState) (r : Nat)
    (h0 : 0 < s.fcrPos) (h1 : s.fcrPos < (s.history.length : Int)) :
    (∀ t : FcrState,
      (fcrPrevBtn t).history = t.history ∧ (fcrPrevBtn t).words = t.words ∧
      (fcrPrevBtn t).fcrRevealed = false ∧
      (fcrPrevBtn t).fcrPos = (if t.fcrPos > 0 then t.fcrPos - 1 else t.fcrPos)) ∧
    (∀ (u : FcrState) (q : Nat), u.fcrPos < (u.history.length : Int) - 1 →
      fcrNextBtn q u = { u with fcrPos := u.fcrPos + 1, fcrRevealed := false }) ∧
    fcrNextBtn r (fcrPrevBtn s) = { s with fcrRevealed := false } := by
  refine ⟨fun t => ⟨rfl, rfl, rfl, rfl⟩,
    fun u q hu => by rw [fcrNextBtn, if_pos hu], ?_⟩
  obtain ⟨w, hist, pos, rev⟩ := s
  simp only at h0 h1
  have hprev : fcrPrevBtn ⟨w, hist, pos, rev⟩ = ⟨w, hist, pos - 1, false⟩ := by
    simp only [fcrPrevBtn]
    rw [if_pos h0]
  rw [hprev, fcrNextBtn, if_pos (by simp only; omega)]
  simp only [FcrState.mk.injEq, true_and, and_true]
  omega

theorem fcr_prev_deterministic_replay_witness :
    (∀ t : FcrState,
      (fcrPrevBtn t).history = t.history ∧ (fcrPrevBtn t).words = t.words ∧
      (fcrPrevBtn t).fcrRevealed = false ∧
      (fcrPrevBtn t).fcrPos = (if t.fcrPos > 0 then t.fcrPos - 1 else t.fcrPos)) ∧
    (∀ (u : FcrState) (q : Nat), u.fcrPos < (u.history.length : Int) - 1 →
      fcrNextBtn q u = { u with fcrPos := u.fcrPos + 1, fcrRevealed := false }) ∧
    fcrNextBtn 5 (fcrPrevBtn ⟨["a", "b"], [0, 1], 1, true⟩) =
      { (⟨["a", "b"], [0, 1], 1, true⟩ : FcrState) with fcrRevealed := false } :=
  fcr_prev_deterministic_replay ⟨["a", "b"], [0, 1], 1, true⟩ 5 (by decide) (by decide)

/-- C10: the randomized tab's render phase is index-safe: for a non-empty
word list it yields a non-empty history, a cursor inside
`[0, len(history) - 1]`, and a displayed index (written back into the
history) inside `[0, len(words) - 1]`, even from stale out-of-range state. -/
theorem fcr_render_index_safe (s : FcrState) (start : Nat)
    (hw : s.words ≠ []) (hstart : start < s.words.length) :
    (fcrRender start s).words = s.words ∧
    (fcrRender start s).history ≠ [] ∧
    0 ≤ (fcrRender start s).fcrPos ∧
    (fcrRender start s).fcrPos < ((fcrRender start s).history.length : Int) ∧
    0 ≤ fcrIndex (fcrRender start s) ∧
    fcrIndex (fcrRender start s) < (s.words.length : Int) := by
  have hwlen : 0 < s.words.length := List.length_pos.mpr hw
  obtain ⟨w, hist0, pos0, rev⟩ := s
  simp only at hw hstart hwlen
  obtain ⟨hist, pos, hh, he⟩ :
      ∃ (hist : List Int) (pos : Int),
        0 < hist.length ∧ fcrEnsureHistory start ⟨w, hist0, pos0, rev⟩ = ⟨w, hist, pos, rev⟩ := by
    by_cases h : hist0.isEmpty
    · exact ⟨[(start : Int)], 0, by simp, by simp only [fcrEnsureHistory]; rw [if_pos h]⟩
    · refine ⟨hist0, pos0, ?_, by simp only [fcrEnsureHistory]; rw [if_neg h]⟩
      rw [List.isEmpty_iff] at h
      exact List.length_pos.mpr h
  rw [fcrRender, he]
  obtain ⟨p, hp0, hp1, hcp⟩ :
      ∃ p : Int, 0 ≤ p ∧ p < (hist.length : Int) ∧
        fcrClampPos ⟨w, hist, pos, rev⟩ = ⟨w, hist, p, rev⟩ := by
    refine ⟨_, ?_, ?_, rfl⟩ <;> simp only [fcrClampPos] <;> split_ifs <;> omega
  rw [hcp]
  have hpnat : p.toNat < hist.length := by omega
  obtain ⟨i, hi0, hi1, hci⟩ :
      ∃ i : Int, 0 ≤ i ∧ i < (w.length : Int) ∧
        fcrClampIndex ⟨w, hist, p, rev⟩ = ⟨w, hist.set p.toNat i, p, rev⟩ := by
    refine ⟨_, ?_, ?_, rfl⟩ <;> simp only [fcrClampIndex] <;> split_ifs <;> omega
  rw [hci]
  have hgot : (hist.set p.toNat i).getD p.toNat 0 = i := by
    rw [List.getD_eq_getElem _ _ (by rw [List.length_set]; exact hpnat)]
    exact List.getElem_set_self _
  refine ⟨rfl, ?_, hp0, ?_, ?_, ?_⟩
  · rw [← List.length_pos, List.length_set]
    exact hh
  · simp only [List.length_set]
    exact hp1
  · rw [fcrIndex]
    simp only [hgot]
    exact hi0
  · rw [fcrIndex]
    simp only [hgot]
    exact hi1

theorem fcr_render_index_safe_witness :
    (fcrRender 1 ⟨["a", "b"], [7, -3], 9, false⟩).words = ["a", "b"] ∧
    (fcrRender 1 ⟨["a", "b"], [7, -3], 9, false⟩).history ≠ [] ∧
    0 ≤ (fcrRender 1 ⟨["a", "b"], [7, -3], 9, false⟩).fcrPos ∧
    (fcrRender 1 ⟨["a", "b"], [7, -3], 9, false⟩).fcrPos <
      ((fcrRender 1 ⟨["a", "b"], [7, -3], 9, false⟩).history.length : Int) ∧
    0 ≤ fcrIndex (fcrRender 1 ⟨["a", "b"], [7, -3], 9, false⟩) ∧
    fcrIndex (fcrRender 1 ⟨["a", "b"], [7, -3], 9, false⟩) <
      ((["a", "b"] : List String).length : Int) :=
  fcr_render_index_safe ⟨["a", "b"], [7, -3], 9, false⟩ 1 (by decide) (by decide)

end Wordplay
